import Mathlib

/-!
# wlrobs: the dmabuf capture source (`src/src/dmabuf_source.c`)

A shallow embedding of the frame-acquisition callbacks of the dmabuf source
(`_frame`, `object`, `ready`, `cancel`), of `render`, `update`, `rm_interface`,
`destroy`, `get_width` and `get_height`, followed by theorems about them.

Conventions of the embedding:

* a C pointer to an external object (texture, protocol proxy, display, registry)
  is an `Option Nat`: `none` is `NULL`, `some p` is the object `p`;
* `struct wlr_frame*` fields are `Option wlr_frame`; the two frame pointers of a
  source never alias in the program (`ready` moves `next_frame` into
  `current_frame`), so value semantics is exact; `calloc` is assumed to succeed;
* the four-element arrays of `struct wlr_frame` are `Arr4`; an access at an index
  of 4 or more, and a dereference of a `NULL` frame pointer, are undefined
  behaviour in C and are reported as a `Fault`;
* calls into libwayland, libobs and libc that act on the outside world are
  recorded, in program order, as a list of `Effect`; `free` of the program's own
  heap blocks (frames, output nodes) is implicit in value semantics;
* `wl_display_roundtrip` invokes listener callbacks; the events one roundtrip
  delivers are supplied by the environment as a list of `Event`.
-/

namespace Wlrobs

/-- Four-slot C array, as `uint32_t strides[4]` in `struct wlr_frame`. -/
structure Arr4 (α : Type) where
  a0 : α
  a1 : α
  a2 : α
  a3 : α
deriving DecidableEq, Repr

namespace Arr4

/-- All four slots hold `v` (a `calloc`ed array is `fill 0`). -/
def fill {α : Type} (v : α) : Arr4 α := ⟨v, v, v, v⟩

/-- Read of `a[i]`; `none` when `i` is outside the array. -/
def get? {α : Type} (a : Arr4 α) : Nat → Option α
  | 0 => some a.a0
  | 1 => some a.a1
  | 2 => some a.a2
  | 3 => some a.a3
  | _ => none

/-- Write `a[i] = v` for `i < 4`; the array is returned as is for other `i`
(callers check the bound first). -/
def set {α : Type} (a : Arr4 α) (i : Nat) (v : α) : Arr4 α :=
  match i with
  | 0 => { a with a0 := v }
  | 1 => { a with a1 := v }
  | 2 => { a with a2 := v }
  | 3 => { a with a3 := v }
  | _ => a

/-- The slots in index order. -/
def toList {α : Type} (a : Arr4 α) : List α := [a.a0, a.a1, a.a2, a.a3]

end Arr4

/-- Mirror of `struct wlr_frame`. -/
structure wlr_frame where
  format : Nat
  width : Nat
  height : Nat
  obj_count : Nat
  strides : Arr4 Nat
  sizes : Arr4 Nat
  fds : Arr4 Int
  offsets : Arr4 Nat
  plane_indices : Arr4 Nat
  modifiers : Arr4 Nat
  texture : Option Nat
  frame : Option Nat
deriving DecidableEq, Repr

/-- Mirror of `struct output_node`; `addr` is the address of the node, which is
what the program compares (`this->current_output == node`). -/
structure output_node where
  addr : Nat
  wl_output : Nat
  xdg_output : Nat
  wl_name : Nat
  obs_idx : Nat
  name : String
deriving DecidableEq, Repr

/-- Mirror of `struct wlr_source` (the mutex, the condition variable and the
property-list pointer carry no data the callbacks read). -/
structure wlr_source where
  wl : Option Nat
  outputs : List output_node
  current_output : Option output_node
  wl_registry : Option Nat
  wl_listener : Option Nat
  output_manager : Option Nat
  dmabuf_manager : Option Nat
  current_frame : Option wlr_frame
  next_frame : Option wlr_frame
  waiting : Bool
  show_cursor : Bool
  render : Bool
deriving DecidableEq, Repr

/-- Events the compositor delivers to the listeners of this source. -/
inductive Event where
  | frame (frame width height format mod_high mod_low obj_count : Nat)
  | object (frame index : Nat) (fd : Int) (size offset stride plane_index : Nat)
  | ready (frame : Nat)
  | cancel (frame : Nat)
  | global_remove (name : Nat)
deriving DecidableEq, Repr

/-- Calls with an effect outside the program, in the order they are made. -/
inductive Effect where
  | gs_texture_destroy (texture : Option Nat)
  | frame_destroy (frame : Nat)
  | close (fd : Int)
  | capture_output (manager : Option Nat) (show_cursor : Bool) (wl_output : Nat) (frame : Nat)
  | add_listener (frame : Nat)
  | roundtrip
  | callback (ev : Event)
  | draw_sprite (texture : Option Nat)
  | cond_broadcast
  | xdg_output_destroy (xdg_output : Nat)
  | list_item_remove (obs_idx : Nat)
  | registry_destroy (registry : Nat)
  | free_listener (listener : Option Nat)
  | display_disconnect (wl : Nat)
deriving DecidableEq, Repr

/-- Ways a call fails to return normally: undefined behaviour (`NULL`
dereference, array access out of bounds), or a roundtrip loop that waits for
events the environment has not supplied. -/
inductive Fault where
  | null_deref
  | out_of_bounds
  | blocked
deriving DecidableEq, Repr

/-- Result of a callback: the new source and the effects it made. -/
abbrev Res := Except Fault (wlr_source × List Effect)

/-- The graphics importer `gs_texture_create_from_dmabuf`, with the arguments
the program passes: width, height, format, plane count, fds, strides, offsets,
modifiers (the colour format is the constant `GS_BGRA`). `none` is `NULL`. -/
abbrev Importer :=
  Nat → Nat → Nat → Nat → Arr4 Int → Arr4 Nat → Arr4 Nat → Arr4 Nat → Option Nat

/-- Arguments of one `object` event. -/
structure object_args where
  index : Nat
  fd : Int
  size : Nat
  offset : Nat
  stride : Nat
  plane_index : Nat
deriving DecidableEq, Repr

/-- The 64-bit modifier `(((uint64_t) mod_high) << 32) | mod_low`. -/
def modifier (mod_high mod_low : Nat) : Nat :=
  ((mod_high <<< 32) ||| mod_low) % 2 ^ 64

/-- Callback `_frame` (lines 238-253): a fresh zeroed frame becomes
`next_frame`; the arguments `x`, `y`, `buffer_flags`, `flags` are ignored by the
program and omitted. -/
def _frame (this : wlr_source) (frame width height format mod_high mod_low obj_count : Nat) :
    wlr_source :=
  { this with
    next_frame := some
      { format := format
        width := width
        height := height
        obj_count := obj_count
        strides := Arr4.fill 0
        sizes := Arr4.fill 0
        fds := Arr4.fill 0
        offsets := Arr4.fill 0
        plane_indices := Arr4.fill 0
        modifiers := Arr4.fill (modifier mod_high mod_low)
        texture := none
        frame := some frame } }

/-- Callback `object` (lines 255-263): the plane data is written at `index`;
the `frame` argument is ignored by the program. -/
def object (this : wlr_source) (index : Nat) (fd : Int)
    (size offset stride plane_index : Nat) : Except Fault wlr_source :=
  match this.next_frame with
  | none => .error .null_deref
  | some nf =>
    if index < 4 then
      .ok { this with
            next_frame := some
              { nf with
                fds := nf.fds.set index fd
                sizes := nf.sizes.set index size
                strides := nf.strides.set index stride
                offsets := nf.offsets.set index offset
                plane_indices := nf.plane_indices.set index plane_index } }
    else .error .out_of_bounds

/-- The loop `for(count = 0; count < obj_count; ++count) close(fds[count])`,
over the counter values still to visit. -/
def close_each (fds : Arr4 Int) : List Nat → Except Fault (List Effect)
  | [] => .ok []
  | count :: rest =>
    match fds.get? count with
    | none => .error .out_of_bounds
    | some fd =>
      match close_each fds rest with
      | .ok effs => .ok (Effect.close fd :: effs)
      | .error f => .error f

/-- The close loop of `ready` and `cancel`. -/
def close_fds (fds : Arr4 Int) (obj_count : Nat) : Except Fault (List Effect) :=
  close_each fds (List.range obj_count)

/-- Callback `ready` (lines 265-296); the `frame` and time arguments are
ignored by the program. -/
def ready (imp : Importer) (this : wlr_source) : Res :=
  match this.next_frame with
  | none => .error .null_deref
  | some nf =>
    let nf1 : wlr_frame :=
      { nf with
        texture := imp nf.width nf.height nf.format nf.obj_count nf.fds nf.strides
          nf.offsets nf.modifiers }
    match this.current_frame with
    | none =>
      .ok ({ this with current_frame := some nf1, next_frame := none, waiting := false }, [])
    | some cf =>
      match close_fds cf.fds cf.obj_count with
      | .error f => .error f
      | .ok closes =>
        .ok ({ this with current_frame := some nf1, next_frame := none, waiting := false },
          (match cf.texture with
            | some t => [Effect.gs_texture_destroy (some t)]
            | none => []) ++
          (match cf.frame with
            | some p => [Effect.frame_destroy p]
            | none => []) ++
          closes)

/-- Callback `cancel` (lines 298-318); the `reason` argument is ignored. -/
def cancel (this : wlr_source) (frame : Nat) : Res :=
  match this.current_frame with
  | none => .error .null_deref
  | some cf =>
    if cf.frame = some frame then
      match close_fds cf.fds cf.obj_count with
      | .error f => .error f
      | .ok closes => .ok ({ this with waiting := false }, Effect.frame_destroy frame :: closes)
    else
      match this.next_frame with
      | none => .ok ({ this with waiting := false }, [Effect.frame_destroy frame])
      | some nf =>
        if nf.frame = some frame then
          match close_fds nf.fds nf.obj_count with
          | .error f => .error f
          | .ok closes =>
            .ok ({ this with waiting := false }, Effect.frame_destroy frame :: closes)
        else .ok ({ this with waiting := false }, [Effect.frame_destroy frame])

/-- Registry callback `rm_interface` (lines 113-137). -/
def rm_interface (this : wlr_source) (name : Nat) : wlr_source × List Effect :=
  ({ this with
     outputs := this.outputs.filter (fun node => node.wl_name ≠ name)
     current_output :=
       if this.outputs.any (fun node => node.wl_name = name ∧ this.current_output = some node)
       then none else this.current_output },
   (this.outputs.filter (fun node => node.wl_name = name)).flatMap
     (fun node => [Effect.xdg_output_destroy node.xdg_output,
                   Effect.list_item_remove node.obs_idx]))

/-- Function `destroy` (lines 139-174). -/
def destroy (this : wlr_source) : wlr_source × List Effect :=
  ({ this with outputs := [], current_output := none, current_frame := none, next_frame := none },
   this.outputs.map (fun node => Effect.xdg_output_destroy node.xdg_output) ++
   (match this.current_frame with
     | some cf => [Effect.gs_texture_destroy cf.texture]
     | none => []) ++
   (match this.next_frame with
     | some nf => [Effect.gs_texture_destroy nf.texture]
     | none => []) ++
   (match this.wl_registry with
     | some r => [Effect.registry_destroy r, Effect.free_listener this.wl_listener]
     | none => []) ++
   (match this.wl with
     | some d => [Effect.display_disconnect d]
     | none => []))

/-- Function `update` (lines 215-226), with the two settings it reads. -/
def update (this : wlr_source) (output : String) (show_cursor : Bool) : wlr_source :=
  if this.render then
    { this with
      current_output :=
        this.outputs.foldl (fun cur node => if node.name = output then some node else cur)
          this.current_output
      show_cursor := show_cursor }
  else this

/-- Invocation of the listener registered for an event. -/
def dispatch (imp : Importer) (this : wlr_source) : Event → Res
  | .frame f w h fmt mh ml oc => .ok (_frame this f w h fmt mh ml oc, [])
  | .object _ i fd sz off st pi =>
    match object this i fd sz off st pi with
    | .ok s => .ok (s, [])
    | .error f => .error f
  | .ready _ => ready imp this
  | .cancel f => cancel this f
  | .global_remove name => .ok (rm_interface this name)

/-- One `wl_display_roundtrip` delivering the events of `round` in order; each
callback is logged before its own effects. -/
def dispatch_round (imp : Importer) : wlr_source → List Event → Res
  | s, [] => .ok (s, [])
  | s, ev :: rest =>
    match dispatch imp s ev with
    | .error f => .error f
    | .ok (s1, e1) =>
      match dispatch_round imp s1 rest with
      | .error f => .error f
      | .ok (s2, e2) => .ok (s2, Effect.callback ev :: e1 ++ e2)

/-- The loop `while(this->waiting && this->current_output != NULL)
wl_display_roundtrip(this->wl)` of `render`; `script` holds the events of the
successive roundtrips. The loop is `blocked` when it needs a roundtrip the
script does not have. -/
def pump (imp : Importer) : wlr_source → List (List Event) → Res
  | s, [] => if s.waiting && s.current_output.isSome then .error .blocked else .ok (s, [])
  | s, round :: rest =>
    if s.waiting && s.current_output.isSome then
      match dispatch_round imp s round with
      | .error f => .error f
      | .ok (s1, e1) =>
        match pump imp s1 rest with
        | .error f => .error f
        | .ok (s2, e2) => .ok (s2, Effect.roundtrip :: e1 ++ e2)
    else .ok (s, [])

/-- Function `render` (lines 327-355). `frame` is the proxy that
`capture_output` returns if it is called; the draw loop is one `draw_sprite`. -/
def render (imp : Importer) (this : wlr_source) (frame : Nat) (script : List (List Event)) :
    Res :=
  match this.render, this.current_output with
  | true, some out =>
    let req : wlr_source × List Effect :=
      if this.waiting then (this, [])
      else ({ this with waiting := true },
            [Effect.capture_output this.dmabuf_manager this.show_cursor out.wl_output frame,
             Effect.add_listener frame])
    match pump imp req.1 script with
    | .error f => .error f
    | .ok (s, effs) =>
      .ok (s, req.2 ++ effs ++
        (match s.current_frame with
          | some cf => [Effect.draw_sprite cf.texture]
          | none => []) ++
        [Effect.cond_broadcast])
  | _, _ => .ok ({ this with waiting := false }, [])

/-- Function `get_width` (lines 382-389). -/
def get_width (this : wlr_source) : Nat :=
  match this.current_frame with
  | none => 0
  | some cf => cf.width

/-- Function `get_height` (lines 391-398). -/
def get_height (this : wlr_source) : Nat :=
  match this.current_frame with
  | none => 0
  | some cf => cf.height

/-- Calls the host and the settings thread make on a source. -/
inductive Step where
  | tick (frame : Nat) (script : List (List Event))
  | select (output : String) (show_cursor : Bool)
  | teardown
deriving DecidableEq, Repr

/-- One host call. -/
def step (imp : Importer) (s : wlr_source) : Step → Res
  | .tick frame script => render imp s frame script
  | .select output show_cursor => .ok (update s output show_cursor, [])
  | .teardown => .ok (destroy s)

/-- A sequence of host calls, with the concatenated effects. -/
def run (imp : Importer) : wlr_source → List Step → Res
  | s, [] => .ok (s, [])
  | s, st :: rest =>
    match step imp s st with
    | .error f => .error f
    | .ok (s1, e1) =>
      match run imp s1 rest with
      | .error f => .error f
      | .ok (s2, e2) => .ok (s2, e1 ++ e2)

/-- The `object` callback applied to a list of plane events, in list order. -/
def apply_objects (s : wlr_source) (l : List object_args) : Except Fault wlr_source :=
  l.foldl
    (fun acc a => acc.bind
      (fun t => object t a.index a.fd a.size a.offset a.stride a.plane_index))
    (.ok s)

/-- Plane events in increasing index order. -/
def sort_by_index (l : List object_args) : List object_args :=
  l.insertionSort (fun a b => a.index ≤ b.index)

/-- File descriptors passed to `close`, in call order. -/
def closed_fds : List Effect → List Int
  | [] => []
  | Effect.close fd :: rest => fd :: closed_fds rest
  | _ :: rest => closed_fds rest

/-- Textures passed to `gs_texture_destroy`, in call order. -/
def destroyed_textures : List Effect → List (Option Nat)
  | [] => []
  | Effect.gs_texture_destroy t :: rest => t :: destroyed_textures rest
  | _ :: rest => destroyed_textures rest

/-- File descriptors delivered by `object` events, in delivery order. -/
def delivered_fds : List Effect → List Int
  | [] => []
  | Effect.callback (Event.object _ _ fd _ _ _ _) :: rest => fd :: delivered_fds rest
  | _ :: rest => delivered_fds rest

/-- Effects that release a resource of a frame: texture destruction, close of
a plane handle, release of the protocol object. -/
def is_release : Effect → Bool
  | Effect.gs_texture_destroy _ => true
  | Effect.close _ => true
  | Effect.frame_destroy _ => true
  | _ => false

/-- Capture requests not yet answered, after one more trace entry: a
`capture_output` call adds its proxy, a `ready` or `cancel` callback removes
the proxy it names. -/
def in_flight_after (u : List Nat) : Effect → List Nat
  | Effect.capture_output _ _ _ frame => frame :: u
  | Effect.callback (Event.ready frame) => u.erase frame
  | Effect.callback (Event.cancel frame) => u.erase frame
  | _ => u

/-- Capture requests not yet answered at the end of a trace that starts with
the requests `u` unanswered. -/
def in_flight (u : List Nat) (tr : List Effect) : List Nat :=
  tr.foldl in_flight_after u

/-- Largest number of unanswered capture requests at any point of a trace. -/
def max_in_flight : List Nat → List Effect → Nat
  | u, [] => u.length
  | u, e :: tr => max u.length (max_in_flight (in_flight_after u e) tr)

/-- Every `ready` or `cancel` callback of the trace names a request that is
unanswered when it is delivered. -/
def answers_in_flight : List Nat → List Effect → Bool
  | _, [] => true
  | u, Effect.callback (Event.ready frame) :: tr =>
    decide (frame ∈ u) && answers_in_flight (u.erase frame) tr
  | u, Effect.callback (Event.cancel frame) :: tr =>
    decide (frame ∈ u) && answers_in_flight (u.erase frame) tr
  | u, e :: tr => answers_in_flight (in_flight_after u e) tr

/-- Effects that neither issue nor answer a capture request. -/
def inert : Effect → Bool
  | Effect.capture_output _ _ _ _ => false
  | Effect.callback _ => false
  | _ => true

/-- Effects that issue a capture request. -/
def is_request : Effect → Bool
  | Effect.capture_output _ _ _ _ => true
  | _ => false

/-- The test of line 331 of `render`: the render flag is false or no output is
selected, so the call clears the busy flag and returns at once. -/
def idle (s : wlr_source) : Bool :=
  !s.render || s.current_output.isNone

/-- Bookkeeping invariant of the busy flag: at most one request `u` is
unanswered, and while one is, the busy flag is set. -/
def Inv (s : wlr_source) (u : List Nat) : Prop :=
  u.length ≤ 1 ∧ (u ≠ [] → s.waiting = true)

/-- A piece of execution from `s` to `t` with trace `effs` keeps the
invariant and never has two requests unanswered, when each answer names an
unanswered request. -/
def Safe (s : wlr_source) (u : List Nat) (effs : List Effect) (t : wlr_source) : Prop :=
  answers_in_flight u effs = true → Inv s u →
    max_in_flight u effs ≤ 1 ∧ Inv t (in_flight u effs)

/-! ### Concrete sources and runs used as test inputs -/

/-- An output named A. -/
def out_a : output_node :=
  { addr := 1, wl_output := 100, xdg_output := 200, wl_name := 10, obs_idx := 0, name := "A" }

/-- An output named B. -/
def out_b : output_node :=
  { addr := 2, wl_output := 101, xdg_output := 201, wl_name := 11, obs_idx := 1, name := "B" }

/-- A connected source with output A selected and no frame captured yet. -/
def src_idle : wlr_source :=
  { wl := some 1
    outputs := [out_b, out_a]
    current_output := some out_a
    wl_registry := some 2
    wl_listener := some 3
    output_manager := some 4
    dmabuf_manager := some 5
    current_frame := none
    next_frame := none
    waiting := false
    show_cursor := false
    render := true }

/-- An importer that always succeeds; the texture is named after the first fd. -/
def imp_ok : Importer := fun _ _ _ _ fds _ _ _ => some (1000 + fds.a0.toNat)

/-- A complete one-plane exchange for request `frame` delivering handle `fd`. -/
def good_round (frame : Nat) (fd : Int) : List Event :=
  [Event.frame frame 1920 1080 875713112 0 0 1,
   Event.object frame 0 fd 8294400 0 7680 0,
   Event.ready frame]

/-- The source after one complete exchange (request 1, handle 5) from `src_idle`. -/
def src_showing : wlr_source :=
  { src_idle with
    current_frame := some
      { format := 875713112
        width := 1920
        height := 1080
        obj_count := 1
        strides := ⟨7680, 0, 0, 0⟩
        sizes := ⟨8294400, 0, 0, 0⟩
        fds := ⟨5, 0, 0, 0⟩
        offsets := Arr4.fill 0
        plane_indices := Arr4.fill 0
        modifiers := Arr4.fill 0
        texture := some 1005
        frame := some 1 } }

/-- Plane event for index 0 delivering handle 5. -/
def plane0 : object_args :=
  { index := 0, fd := 5, size := 8294400, offset := 0, stride := 7680, plane_index := 0 }

/-- Plane event for index 1 delivering handle 6. -/
def plane1 : object_args :=
  { index := 1, fd := 6, size := 4147200, offset := 8294400, stride := 3840, plane_index := 1 }

/-- Three ticks in which the compositor cancels the proxy of the current frame
(request 1, already answered) while request 2 is unanswered. -/
def stale_cancel_steps : List Step :=
  [Step.tick 1 [good_round 1 5],
   Step.tick 2 [[Event.cancel 1]],
   Step.tick 3 [good_round 3 6]]

/-- Three calls in which the selected output A is removed while request 1 is
unanswered, output B is selected before the next tick, and that tick, entered
with the busy flag set, receives the answer to request 1. -/
def busy_steps : List Step :=
  [Step.tick 1 [[Event.global_remove 10]],
   Step.select "B" false,
   Step.tick 2 [good_round 1 6]]

/-- Four calls in which the selected output is removed while request 1 is
unanswered, output B is selected, and request 3 completes. -/
def removal_steps : List Step :=
  [Step.tick 1 [[Event.global_remove 10]],
   Step.tick 2 [],
   Step.select "B" false,
   Step.tick 3 [good_round 3 6]]

/-- Trace of a result (empty for a fault). -/
def trace_of : Res → List Effect
  | .ok (_, tr) => tr
  | .error _ => []

/-- No render tick of the run is entered idle while a request is unanswered;
`u` holds the requests unanswered at the start of the run. -/
def no_reset_in_flight (imp : Importer) : wlr_source → List Nat → List Step → Bool
  | _, _, [] => true
  | s, u, st :: rest =>
    (match st with
      | Step.tick _ _ => !(idle s && !u.isEmpty)
      | _ => true) &&
    (match step imp s st with
      | .error _ => true
      | .ok (s1, e1) => no_reset_in_flight imp s1 (in_flight u e1) rest)

/-! ## Plane events commute (C1) -/

theorem Arr4.set_comm {α : Type} (a : Arr4 α) (i j : Nat) (v w : α) (hij : i ≠ j) :
    (a.set i v).set j w = (a.set j w).set i v := by
  rcases i with _ | _ | _ | _ | i <;> rcases j with _ | _ | _ | _ | j <;>
    first
      | rfl
      | exact absurd rfl hij

theorem object_comm (s : wlr_source) (x y : object_args) (hx : x.index < 4) (hy : y.index < 4)
    (hxy : x.index ≠ y.index) :
    (object s x.index x.fd x.size x.offset x.stride x.plane_index).bind
        (fun t => object t y.index y.fd y.size y.offset y.stride y.plane_index) =
      (object s y.index y.fd y.size y.offset y.stride y.plane_index).bind
        (fun t => object t x.index x.fd x.size x.offset x.stride x.plane_index) := by
  unfold object
  cases hnf : s.next_frame with
  | none => rfl
  | some nf =>
    simp only [hx, hy, if_true, Except.bind]
    simp only [Arr4.set_comm _ _ _ _ _ hxy]

theorem apply_objects_perm (s : wlr_source) (l l2 : List object_args)
    (hd : (l.map (fun a => a.index)).Nodup) (hb : ∀ a ∈ l, a.index < 4) (hp : l2.Perm l) :
    apply_objects s l2 = apply_objects s l := by
  unfold apply_objects
  refine (List.Perm.foldl_eq' hp.symm ?_ _).symm
  intro x hx y hy z
  cases z with
  | error f => rfl
  | ok t =>
    by_cases hxy : x = y
    · subst hxy; rfl
    · have hne : x.index ≠ y.index := by
        intro h
        exact hxy (List.inj_on_of_nodup_map hd hx hy h)
      exact object_comm t x y (hb x hx) (hb y hy) hne

theorem apply_objects_ok (l : List object_args) :
    ∀ (s : wlr_source), s.next_frame.isSome = true → (∀ a ∈ l, a.index < 4) →
      ∃ t, apply_objects s l = .ok t ∧ t.next_frame.isSome = true := by
  induction l with
  | nil => intro s hs _; exact ⟨s, rfl, hs⟩
  | cons a l ih =>
    intro s hs hb
    have ha : a.index < 4 := hb a (List.mem_cons_self _ _)
    cases hnf : s.next_frame with
    | none => simp [hnf] at hs
    | some nf =>
      have hobj : ∃ t, object s a.index a.fd a.size a.offset a.stride a.plane_index = .ok t ∧
          t.next_frame.isSome = true := by
        simp [object, hnf, ha]
      obtain ⟨t, ht, hts⟩ := hobj
      obtain ⟨u, hu, hus⟩ := ih t hts (fun b hb2 => hb b (List.mem_cons_of_mem _ hb2))
      refine ⟨u, ?_, hus⟩
      unfold apply_objects at hu ⊢
      simp only [List.foldl_cons, Except.bind, ht]
      exact hu

/-- C1: on a pending frame created by a metadata event, plane events with
pairwise distinct indices below 4 give the same source state (hence the same
pending descriptor, every field of it) in any arrival order as in increasing
index order, and the callbacks return normally. -/
theorem object_order_independent (this : wlr_source)
    (frame width height format mod_high mod_low obj_count : Nat)
    (l l2 : List object_args)
    (hd : (l.map (fun a => a.index)).Nodup) (hb : ∀ a ∈ l, a.index < 4) (hp : l2.Perm l) :
    (sort_by_index l).Sorted (fun a b => a.index ≤ b.index) ∧
    apply_objects (_frame this frame width height format mod_high mod_low obj_count) l2 =
      apply_objects (_frame this frame width height format mod_high mod_low obj_count)
        (sort_by_index l) ∧
    ∃ t, apply_objects (_frame this frame width height format mod_high mod_low obj_count) l2 =
      .ok t := by
  have hsort : (sort_by_index l).Perm l := List.perm_insertionSort _ l
  haveI htot : IsTotal object_args (fun a b => a.index ≤ b.index) :=
    ⟨fun a b => Nat.le_total a.index b.index⟩
  haveI htrans : IsTrans object_args (fun a b => a.index ≤ b.index) :=
    ⟨fun _ _ _ h1 h2 => Nat.le_trans h1 h2⟩
  refine ⟨List.sorted_insertionSort _ l, ?_, ?_⟩
  · rw [apply_objects_perm _ l l2 hd hb hp, apply_objects_perm _ l (sort_by_index l) hd hb hsort]
  · have hb2 : ∀ a ∈ l2, a.index < 4 := fun a ha => hb a (hp.subset ha)
    obtain ⟨t, ht, _⟩ := apply_objects_ok l2
      (_frame this frame width height format mod_high mod_low obj_count) rfl hb2
    exact ⟨t, ht⟩


theorem object_order_independent_witness :
    apply_objects (_frame src_idle 1 1920 1080 875713112 0 0 2) [plane1, plane0] =
      apply_objects (_frame src_idle 1 1920 1080 875713112 0 0 2)
        (sort_by_index [plane0, plane1]) :=
  (object_order_independent src_idle 1 1920 1080 875713112 0 0 2 [plane0, plane1]
    [plane1, plane0] (by decide) (by decide) (List.Perm.swap _ _ _)).2.1

/-! ## The cancel callback (C2, C3, C10) -/

/-- C2: with no current frame, `cancel` reads `this->current_frame->frame`
through a `NULL` pointer, whatever proxy the event names; the first request
of a source being cancelled (a render tick on `src_idle` answered by `cancel`)
reaches that read. -/
theorem cancel_without_current_frame_faults :
    cancel { src_idle with waiting := true } 9 = .error .null_deref ∧
    render imp_ok src_idle 9 [[Event.cancel 9]] = .error .null_deref :=
  ⟨rfl, rfl⟩

/-- C3: a request for two planes that is cancelled after one plane event
(handle 6) closes the handles `6` and `0`: the slot of the plane that never
arrived holds the `calloc` zero, and descriptor 0 was never delivered. The
current frame is unchanged and the busy flag is cleared. From a source with no
current frame the same exchange ends in the `NULL` read of `cancel`. -/
theorem cancel_closes_unreceived_slot :
    (render imp_ok src_showing 2
        [[Event.frame 2 1920 1080 875713112 0 0 2,
          Event.object 2 0 6 8294400 0 7680 0,
          Event.cancel 2]]).map
      (fun r => (closed_fds r.2, delivered_fds r.2, r.1.current_frame, r.1.waiting)) =
      .ok ([6, 0], [6], src_showing.current_frame, false) ∧
    render imp_ok src_idle 2
        [[Event.frame 2 1920 1080 875713112 0 0 2,
          Event.object 2 0 6 8294400 0 7680 0,
          Event.cancel 2]] = .error .null_deref :=
  ⟨rfl, rfl⟩

/-- C10: after a `cancel` that names the pending frame, `next_frame` still
points at the cancelled frame while the busy flag is false; the state is
reached by two render ticks from `src_idle`. -/
theorem cancel_keeps_next_frame :
    (run imp_ok src_idle
        [Step.tick 1 [good_round 1 5],
         Step.tick 2 [[Event.frame 2 1920 1080 875713112 0 0 1, Event.cancel 2]]]).map
      (fun r => (r.1.next_frame.map (fun nf => nf.frame), r.1.waiting)) =
    .ok (some (some 2), false) :=
  rfl

/-! ## Handles over a whole run (C4) -/

/-- C4: in the run request, metadata, plane (handle 5), ready, teardown the
handle 5 is never closed (`destroy` closes no plane handle); in the run where
a `cancel` names the current frame and a later exchange completes, handle 5 is
closed twice and handle 6 never. No texture is destroyed twice in either run. -/
theorem handles_not_closed_exactly_once :
    (run imp_ok src_idle [Step.tick 1 [good_round 1 5], Step.teardown]).map
      (fun r => (delivered_fds r.2, closed_fds r.2, destroyed_textures r.2)) =
      .ok ([5], [], [some 1005]) ∧
    (run imp_ok src_idle
        [Step.tick 1 [good_round 1 5], Step.tick 2 [[Event.cancel 1]],
         Step.tick 3 [good_round 3 6], Step.teardown]).map
      (fun r => (delivered_fds r.2, closed_fds r.2, destroyed_textures r.2)) =
      .ok ([5, 6], [5, 5], [some 1005, some 1006]) :=
  ⟨rfl, rfl⟩

/-! ## Promotion by the ready callback (C5) -/

theorem close_fds_eq (fds : Arr4 Int) (n : Nat) (hn : n ≤ 4) :
    close_fds fds n = .ok ((fds.toList.take n).map Effect.close) := by
  interval_cases n <;> rfl

/-- C5, the claim as stated fails: for the current frame of `src_showing`
(texture 1005, proxy 1, one plane with handle 5) `ready` destroys the texture,
then releases the protocol object, and closes the handle last. -/
theorem ready_order_counterexample :
    (ready imp_ok (_frame src_showing 2 1920 1080 875713112 0 0 1)).map Prod.snd =
      .ok [Effect.gs_texture_destroy (some 1005), Effect.frame_destroy 1, Effect.close 5] ∧
    (ready imp_ok (_frame src_showing 2 1920 1080 875713112 0 0 1)).map Prod.snd ≠
      .ok [Effect.gs_texture_destroy (some 1005), Effect.close 5, Effect.frame_destroy 1] := by
  refine ⟨rfl, ?_⟩
  intro h
  have h2 : (Except.ok [Effect.gs_texture_destroy (some 1005), Effect.frame_destroy 1,
      Effect.close 5] : Except Fault (List Effect)) =
      .ok [Effect.gs_texture_destroy (some 1005), Effect.close 5, Effect.frame_destroy 1] := h
  injection h2 with h3
  revert h3
  decide

/-- C5 amended: with a pending frame `nf` and a previous current frame `cf` of
at most 4 planes, `ready` returns normally; it destroys the texture of `cf` when
it is not `NULL`, then releases the protocol object of `cf` when it is not
`NULL`, then closes the first `obj_count` handles of `cf` in index order; the
pending frame with its imported texture becomes `current_frame`, `next_frame`
is `NULL` and the busy flag is false. -/
theorem ready_releases_previous (imp : Importer) (s : wlr_source) (cf nf : wlr_frame)
    (hc : s.current_frame = some cf) (hn : s.next_frame = some nf) (hb : cf.obj_count ≤ 4) :
    ready imp s =
      .ok ({ s with
             current_frame := some
               { nf with
                 texture := imp nf.width nf.height nf.format nf.obj_count nf.fds nf.strides
                   nf.offsets nf.modifiers }
             next_frame := none
             waiting := false },
           (match cf.texture with
             | some t => [Effect.gs_texture_destroy (some t)]
             | none => []) ++
           (match cf.frame with
             | some p => [Effect.frame_destroy p]
             | none => []) ++
           (cf.fds.toList.take cf.obj_count).map Effect.close) := by
  unfold ready
  simp only [hc, hn, close_fds_eq cf.fds cf.obj_count hb]

theorem ready_releases_previous_witness :
    (_frame src_showing 2 1920 1080 875713112 0 0 1).current_frame =
      src_showing.current_frame ∧
    ready imp_ok (_frame src_showing 2 1920 1080 875713112 0 0 1) =
      .ok ({ src_showing with
             current_frame := some
               { format := 875713112
                 width := 1920
                 height := 1080
                 obj_count := 1
                 strides := Arr4.fill 0
                 sizes := Arr4.fill 0
                 fds := Arr4.fill 0
                 offsets := Arr4.fill 0
                 plane_indices := Arr4.fill 0
                 modifiers := Arr4.fill 0
                 texture := some 1000
                 frame := some 2 }
             next_frame := none
             waiting := false },
           [Effect.gs_texture_destroy (some 1005), Effect.frame_destroy 1, Effect.close 5]) :=
  ⟨rfl, ready_releases_previous imp_ok (_frame src_showing 2 1920 1080 875713112 0 0 1)
    _ _ rfl rfl (by decide)⟩

/-! ## Teardown (C6) -/

/-- C6: `destroy` leaves `wl_registry` and `wl` set, so on a connected source a
second `destroy` right after the first destroys the registry, frees the
listener and disconnects the display again; it destroys no texture and leaves
the state as the first call left it. -/
theorem destroy_twice_repeats_release (s : wlr_source) (r d : Nat)
    (hr : s.wl_registry = some r) (hd : s.wl = some d) :
    destroy (destroy s).1 =
      ((destroy s).1,
       [Effect.registry_destroy r, Effect.free_listener s.wl_listener,
        Effect.display_disconnect d]) := by
  simp [destroy, hr, hd]

theorem destroy_twice_repeats_release_witness :
    (destroy (destroy src_showing).1).2 =
      [Effect.registry_destroy 2, Effect.free_listener (some 3),
       Effect.display_disconnect 1] :=
  congrArg Prod.snd (destroy_twice_repeats_release src_showing 2 1 rfl rfl)

/-! ## Render ticks (C8, C9) -/

/-- C9: with no output selected, or with the render flag false, `render`
returns at once: no effect at all (no capture request, no roundtrip, no draw),
every field but the busy flag unchanged, the busy flag false. -/
theorem render_without_target_returns (imp : Importer) (s : wlr_source) (frame : Nat)
    (script : List (List Event)) (h : s.current_output = none ∨ s.render = false) :
    render imp s frame script = .ok ({ s with waiting := false }, []) ∧
    ({ s with waiting := false } : wlr_source).current_frame = s.current_frame ∧
    ({ s with waiting := false } : wlr_source).next_frame = s.next_frame := by
  refine ⟨?_, rfl, rfl⟩
  unfold render
  rcases h with h | h
  · rw [h]
    cases s.render <;> rfl
  · rw [h]

theorem render_without_target_returns_witness :
    render imp_ok { src_showing with current_output := none, waiting := true } 7
        [good_round 7 6] =
      .ok ({ src_showing with current_output := none, waiting := false }, []) :=
  (render_without_target_returns imp_ok
    { src_showing with current_output := none, waiting := true } 7 [good_round 7 6]
    (Or.inl rfl)).1


/-- C8: from a source with no current frame, an output selected and no request
in flight, the tick request, metadata (2 planes), plane 1, plane 0, ready with
an importer that succeeds returns normally and leaves a current frame of the
announced width and height whose texture is the imported, non-`NULL` one;
`get_width` and `get_height` return these dimensions (and 0 before); the tick
makes no texture-destroy, close or protocol-release call. -/
theorem first_frame_scenario (imp : Importer) (s : wlr_source) (out : output_node)
    (frame format mod_high mod_low w h : Nat) (fd1 fd0 : Int)
    (size1 offset1 stride1 plane1 size0 offset0 stride0 plane0 : Nat)
    (hr : s.render = true) (ho : s.current_output = some out) (hw : s.waiting = false)
    (hc : s.current_frame = none)
    (hi : (imp w h format 2 ⟨fd0, fd1, 0, 0⟩ ⟨stride0, stride1, 0, 0⟩
      ⟨offset0, offset1, 0, 0⟩ (Arr4.fill (modifier mod_high mod_low))).isSome = true) :
    get_width s = 0 ∧ get_height s = 0 ∧
    ∃ t effs cf,
      render imp s frame
          [[Event.frame frame w h format mod_high mod_low 2,
            Event.object frame 1 fd1 size1 offset1 stride1 plane1,
            Event.object frame 0 fd0 size0 offset0 stride0 plane0,
            Event.ready frame]] = .ok (t, effs) ∧
      t.current_frame = some cf ∧ cf.width = w ∧ cf.height = h ∧
      cf.texture = imp w h format 2 ⟨fd0, fd1, 0, 0⟩ ⟨stride0, stride1, 0, 0⟩
        ⟨offset0, offset1, 0, 0⟩ (Arr4.fill (modifier mod_high mod_low)) ∧
      cf.texture.isSome = true ∧
      get_width t = w ∧ get_height t = h ∧
      t.next_frame = none ∧ t.waiting = false ∧
      ∀ e ∈ effs, is_release e = false := by
  refine ⟨by simp [get_width, hc], by simp [get_height, hc], ?_⟩
  have hrun :
      render imp s frame
          [[Event.frame frame w h format mod_high mod_low 2,
            Event.object frame 1 fd1 size1 offset1 stride1 plane1,
            Event.object frame 0 fd0 size0 offset0 stride0 plane0,
            Event.ready frame]] =
        .ok ({ s with
               current_frame := some
                 { format := format
                   width := w
                   height := h
                   obj_count := 2
                   strides := ⟨stride0, stride1, 0, 0⟩
                   sizes := ⟨size0, size1, 0, 0⟩
                   fds := ⟨fd0, fd1, 0, 0⟩
                   offsets := ⟨offset0, offset1, 0, 0⟩
                   plane_indices := ⟨plane0, plane1, 0, 0⟩
                   modifiers := Arr4.fill (modifier mod_high mod_low)
                   texture := imp w h format 2 ⟨fd0, fd1, 0, 0⟩ ⟨stride0, stride1, 0, 0⟩
                     ⟨offset0, offset1, 0, 0⟩ (Arr4.fill (modifier mod_high mod_low))
                   frame := some frame }
               next_frame := none
               waiting := false },
             [Effect.capture_output s.dmabuf_manager s.show_cursor out.wl_output frame,
              Effect.add_listener frame,
              Effect.roundtrip,
              Effect.callback (Event.frame frame w h format mod_high mod_low 2),
              Effect.callback (Event.object frame 1 fd1 size1 offset1 stride1 plane1),
              Effect.callback (Event.object frame 0 fd0 size0 offset0 stride0 plane0),
              Effect.callback (Event.ready frame),
              Effect.draw_sprite (imp w h format 2 ⟨fd0, fd1, 0, 0⟩ ⟨stride0, stride1, 0, 0⟩
                ⟨offset0, offset1, 0, 0⟩ (Arr4.fill (modifier mod_high mod_low))),
              Effect.cond_broadcast]) := by
    simp [render, hr, ho, hw, pump, dispatch_round, dispatch, _frame, object, ready, hc,
      Arr4.set, Arr4.fill]
  refine ⟨_, _, _, hrun, rfl, rfl, rfl, rfl, hi, rfl, rfl, rfl, rfl, ?_⟩
  intro e he
  simp only [List.mem_cons, List.mem_singleton, List.not_mem_nil, or_false] at he
  rcases he with he | he | he | he | he | he | he | he | he <;> subst he <;> rfl

theorem first_frame_scenario_witness :
    get_width src_idle = 0 ∧ get_height src_idle = 0 ∧
    ∃ t effs cf,
      render imp_ok src_idle 1
          [[Event.frame 1 1920 1080 875713112 0 0 2,
            Event.object 1 1 6 4147200 8294400 3840 1,
            Event.object 1 0 5 8294400 0 7680 0,
            Event.ready 1]] = .ok (t, effs) ∧
      t.current_frame = some cf ∧ cf.width = 1920 ∧ cf.height = 1080 ∧
      cf.texture = imp_ok 1920 1080 875713112 2 ⟨5, 6, 0, 0⟩ ⟨7680, 3840, 0, 0⟩
        ⟨0, 8294400, 0, 0⟩ (Arr4.fill (modifier 0 0)) ∧
      cf.texture.isSome = true ∧
      get_width t = 1920 ∧ get_height t = 1080 ∧
      t.next_frame = none ∧ t.waiting = false ∧
      ∀ e ∈ effs, is_release e = false :=
  first_frame_scenario imp_ok src_idle out_a 1 875713112 0 0 1920 1080 6 5
    4147200 8294400 3840 1 8294400 0 7680 0 rfl rfl rfl rfl rfl


/-! ## At most one request in flight (C7) -/

theorem in_flight_append (u : List Nat) (a b : List Effect) :
    in_flight u (a ++ b) = in_flight (in_flight u a) b := by
  simp [in_flight, List.foldl_append]

theorem max_in_flight_append (a b : List Effect) :
    ∀ u : List Nat,
      max_in_flight u (a ++ b) = max (max_in_flight u a) (max_in_flight (in_flight u a) b) := by
  induction a with
  | nil =>
    intro u
    cases b with
    | nil => simp [max_in_flight, in_flight]
    | cons e b => simp [max_in_flight, in_flight]
  | cons e a ih =>
    intro u
    show max u.length (max_in_flight (in_flight_after u e) (a ++ b)) =
      max (max u.length (max_in_flight (in_flight_after u e) a))
        (max_in_flight (in_flight (in_flight_after u e) a) b)
    rw [ih]
    exact (Nat.max_assoc _ _ _).symm

theorem answers_in_flight_append (a b : List Effect) :
    ∀ u : List Nat,
      answers_in_flight u (a ++ b) =
        (answers_in_flight u a && answers_in_flight (in_flight u a) b) := by
  induction a with
  | nil => intro u; simp [answers_in_flight, in_flight]
  | cons e a ih =>
    intro u
    cases e with
    | callback ev =>
      cases ev <;>
        simp [answers_in_flight, ih, in_flight, in_flight_after, Bool.and_assoc]
    | _ => simp [answers_in_flight, ih, in_flight, in_flight_after]

theorem in_flight_inert (l : List Effect) (hl : ∀ e ∈ l, inert e = true) (u : List Nat) :
    in_flight u l = u := by
  induction l with
  | nil => rfl
  | cons e l ih =>
    have he : inert e = true := hl e (List.mem_cons_self _ _)
    have hrest : ∀ x ∈ l, inert x = true := fun x hx => hl x (List.mem_cons_of_mem _ hx)
    have hstep : in_flight_after u e = u := by
      cases e <;> first | rfl | simp [inert] at he
    simp only [in_flight, List.foldl_cons, hstep]
    exact ih hrest

theorem max_in_flight_inert (l : List Effect) (hl : ∀ e ∈ l, inert e = true) (u : List Nat) :
    max_in_flight u l = u.length := by
  induction l with
  | nil => rfl
  | cons e l ih =>
    have he : inert e = true := hl e (List.mem_cons_self _ _)
    have hrest : ∀ x ∈ l, inert x = true := fun x hx => hl x (List.mem_cons_of_mem _ hx)
    have hstep : in_flight_after u e = u := by
      cases e <;> first | rfl | simp [inert] at he
    simp only [max_in_flight, hstep, ih hrest, Nat.max_self]

theorem answers_in_flight_inert (l : List Effect) (hl : ∀ e ∈ l, inert e = true)
    (u : List Nat) : answers_in_flight u l = true := by
  induction l with
  | nil => rfl
  | cons e l ih =>
    have he : inert e = true := hl e (List.mem_cons_self _ _)
    have hrest : ∀ x ∈ l, inert x = true := fun x hx => hl x (List.mem_cons_of_mem _ hx)
    cases e <;> first
      | (simp [inert] at he; done)
      | (simp only [answers_in_flight, in_flight_after]; exact ih hrest)


theorem close_each_inert (fds : Arr4 Int) (l : List Nat) :
    ∀ cl, close_each fds l = .ok cl → ∀ e ∈ cl, inert e = true := by
  induction l with
  | nil =>
    intro cl h e he
    simp only [close_each, Except.ok.injEq] at h
    subst h
    simp at he
  | cons c l ih =>
    intro cl h e he
    unfold close_each at h
    cases hg : fds.get? c with
    | none => simp [hg] at h
    | some fd =>
      cases hr : close_each fds l with
      | error f => simp [hg, hr] at h
      | ok effs =>
        simp only [hg, hr, Except.ok.injEq] at h
        subst h
        rcases List.mem_cons.1 he with h1 | h1
        · subst h1; rfl
        · exact ih effs hr e h1

theorem close_fds_inert (fds : Arr4 Int) (n : Nat) (cl : List Effect)
    (h : close_fds fds n = .ok cl) : ∀ e ∈ cl, inert e = true :=
  close_each_inert fds (List.range n) cl h

theorem ready_fields (imp : Importer) (s t : wlr_source) (e1 : List Effect)
    (h : ready imp s = .ok (t, e1)) :
    t.waiting = false ∧ t.render = s.render ∧ t.current_output = s.current_output ∧
      ∀ e ∈ e1, inert e = true := by
  unfold ready at h
  cases hn : s.next_frame with
  | none => simp [hn] at h
  | some nf =>
    cases hc : s.current_frame with
    | none =>
      simp only [hn, hc, Except.ok.injEq, Prod.mk.injEq] at h
      obtain ⟨h1, h2⟩ := h
      subst h1 h2
      exact ⟨rfl, rfl, rfl, by simp⟩
    | some cf =>
      cases hcl : close_fds cf.fds cf.obj_count with
      | error f => simp [hn, hc, hcl] at h
      | ok closes =>
        simp only [hn, hc, hcl, Except.ok.injEq, Prod.mk.injEq] at h
        obtain ⟨h1, h2⟩ := h
        subst h1 h2
        refine ⟨rfl, rfl, rfl, ?_⟩
        intro e he
        rcases List.mem_append.1 he with he | he
        · rcases List.mem_append.1 he with he | he
          · cases ht : cf.texture with
            | none => simp [ht] at he
            | some x => simp [ht] at he; subst he; rfl
          · cases hp : cf.frame with
            | none => simp [hp] at he
            | some x => simp [hp] at he; subst he; rfl
        · exact close_fds_inert _ _ _ hcl e he

theorem cancel_fields (s t : wlr_source) (frame : Nat) (e1 : List Effect)
    (h : cancel s frame = .ok (t, e1)) :
    t.waiting = false ∧ t.render = s.render ∧ t.current_output = s.current_output ∧
      ∀ e ∈ e1, inert e = true := by
  have key : ∀ (s0 : wlr_source) (fds : Arr4 Int) (n : Nat),
      (match close_fds fds n with
        | .error f => (.error f : Res)
        | .ok closes => .ok (s0, Effect.frame_destroy frame :: closes)) = .ok (t, e1) →
      s0.waiting = false → s0.render = s.render → s0.current_output = s.current_output →
      t.waiting = false ∧ t.render = s.render ∧ t.current_output = s.current_output ∧
        ∀ e ∈ e1, inert e = true := by
    intro s0 fds n hk hw hr ho
    cases hcl : close_fds fds n with
    | error f => simp [hcl] at hk
    | ok closes =>
      simp only [hcl, Except.ok.injEq, Prod.mk.injEq] at hk
      obtain ⟨h1, h2⟩ := hk
      subst h1 h2
      refine ⟨hw, hr, ho, ?_⟩
      intro e he
      rcases List.mem_cons.1 he with he | he
      · subst he; rfl
      · exact close_fds_inert _ _ _ hcl e he
  have plain : ∀ (s0 : wlr_source),
      (.ok (s0, [Effect.frame_destroy frame]) : Res) = .ok (t, e1) →
      s0.waiting = false → s0.render = s.render → s0.current_output = s.current_output →
      t.waiting = false ∧ t.render = s.render ∧ t.current_output = s.current_output ∧
        ∀ e ∈ e1, inert e = true := by
    intro s0 hk hw hr ho
    simp only [Except.ok.injEq, Prod.mk.injEq] at hk
    obtain ⟨h1, h2⟩ := hk
    subst h1 h2
    refine ⟨hw, hr, ho, ?_⟩
    intro e he
    simp only [List.mem_singleton] at he
    subst he; rfl
  unfold cancel at h
  cases hc : s.current_frame with
  | none => simp [hc] at h
  | some cf =>
    simp only [hc] at h
    by_cases h1 : cf.frame = some frame
    · simp only [h1, if_true] at h
      exact key _ _ _ h rfl rfl rfl
    · simp only [h1, if_false] at h
      cases hn : s.next_frame with
      | none =>
        simp only [hn] at h
        exact plain _ h rfl rfl rfl
      | some nf =>
        simp only [hn] at h
        by_cases h2 : nf.frame = some frame
        · simp only [h2, if_true] at h
          exact key _ _ _ h rfl rfl rfl
        · simp only [h2, if_false] at h
          exact plain _ h rfl rfl rfl


theorem Safe.append {s s1 s2 : wlr_source} {u : List Nat} {a b : List Effect}
    (h1 : Safe s u a s1) (h2 : Safe s1 (in_flight u a) b s2) : Safe s u (a ++ b) s2 := by
  intro hans hinv
  rw [answers_in_flight_append] at hans
  simp only [Bool.and_eq_true] at hans
  obtain ⟨m1, i1⟩ := h1 hans.1 hinv
  obtain ⟨m2, i2⟩ := h2 hans.2 i1
  rw [max_in_flight_append, in_flight_append]
  exact ⟨max_le m1 m2, i2⟩

theorem Inv.of_waiting {s t : wlr_source} {u : List Nat} (h : Inv s u)
    (hw : t.waiting = s.waiting) : Inv t u := by
  refine ⟨h.1, fun hu => ?_⟩
  rw [hw]
  exact h.2 hu

theorem safe_inert (s t : wlr_source) (u : List Nat) (l : List Effect)
    (hl : ∀ e ∈ l, inert e = true) (hw : t.waiting = s.waiting) : Safe s u l t := by
  intro _ hinv
  rw [max_in_flight_inert l hl, in_flight_inert l hl]
  exact ⟨hinv.1, hinv.of_waiting hw⟩

theorem safe_answer (s t : wlr_source) (u : List Nat) (frame : Nat) (ev : Event)
    (e1 : List Effect) (hev : ev = Event.ready frame ∨ ev = Event.cancel frame)
    (hl : ∀ e ∈ e1, inert e = true) : Safe s u (Effect.callback ev :: e1) t := by
  intro hans hinv
  have hmem : frame ∈ u := by
    rcases hev with hev | hev <;> subst hev <;>
      simp only [answers_in_flight, Bool.and_eq_true, decide_eq_true_eq] at hans <;>
      exact hans.1
  have hu : u = [frame] := by
    cases u with
    | nil => simp at hmem
    | cons a rest =>
      have hlen := hinv.1
      cases rest with
      | nil =>
        simp only [List.mem_singleton] at hmem
        rw [hmem]
      | cons b rest2 => simp at hlen
  subst hu
  have hstep : in_flight_after [frame] (Effect.callback ev) = [] := by
    rcases hev with hev | hev <;> subst hev <;> simp [in_flight_after]
  have hfl : in_flight [frame] (Effect.callback ev :: e1) = [] := by
    simp only [in_flight, List.foldl_cons, hstep]
    exact in_flight_inert e1 hl []
  have hmax : max_in_flight [frame] (Effect.callback ev :: e1) ≤ 1 := by
    simp only [max_in_flight, hstep, max_in_flight_inert e1 hl]
    simp
  rw [hfl]
  exact ⟨hmax, Nat.zero_le 1, fun h => absurd rfl h⟩

theorem object_fields (s t : wlr_source) (index : Nat) (fd : Int)
    (size offset stride plane_index : Nat)
    (h : object s index fd size offset stride plane_index = .ok t) :
    t.waiting = s.waiting ∧ t.render = s.render ∧ t.current_output = s.current_output := by
  unfold object at h
  cases hn : s.next_frame with
  | none => simp [hn] at h
  | some nf =>
    by_cases hi : index < 4
    · simp only [hn, hi, if_true, Except.ok.injEq] at h
      subst h
      exact ⟨rfl, rfl, rfl⟩
    · simp [hn, hi] at h

theorem rm_interface_inert (s : wlr_source) (name : Nat) :
    ∀ e ∈ (rm_interface s name).2, inert e = true := by
  intro e he
  simp only [rm_interface, List.mem_flatMap] at he
  obtain ⟨node, _, hn⟩ := he
  simp only [List.mem_cons, List.mem_singleton, List.not_mem_nil, or_false] at hn
  rcases hn with hn | hn <;> subst hn <;> rfl

theorem destroy_inert (s : wlr_source) : ∀ e ∈ (destroy s).2, inert e = true := by
  intro e he
  simp only [destroy, List.mem_append, List.mem_map] at he
  rcases he with (((he | he) | he) | he) | he
  · obtain ⟨node, _, hn⟩ := he
    subst hn; rfl
  · cases hc : s.current_frame with
    | none => simp [hc] at he
    | some cf => simp [hc] at he; subst he; rfl
  · cases hc : s.next_frame with
    | none => simp [hc] at he
    | some nf => simp [hc] at he; subst he; rfl
  · cases hc : s.wl_registry with
    | none => simp [hc] at he
    | some r =>
      simp only [hc, List.mem_cons, List.mem_singleton, List.not_mem_nil, or_false] at he
      rcases he with he | he <;> subst he <;> rfl
  · cases hc : s.wl with
    | none => simp [hc] at he
    | some d => simp [hc] at he; subst he; rfl

theorem safe_neutral_callback (s t : wlr_source) (u : List Nat) (ev : Event)
    (e1 : List Effect)
    (hev : ∀ v : List Nat, in_flight_after v (Effect.callback ev) = v)
    (hl : ∀ e ∈ e1, inert e = true)
    (hw : t.waiting = s.waiting) : Safe s u (Effect.callback ev :: e1) t := by
  intro _ hinv
  have hfl : in_flight u (Effect.callback ev :: e1) = u := by
    simp only [in_flight, List.foldl_cons, hev]
    exact in_flight_inert e1 hl u
  have hmax : max_in_flight u (Effect.callback ev :: e1) = u.length := by
    simp only [max_in_flight, hev, max_in_flight_inert e1 hl, Nat.max_self]
  rw [hfl, hmax]
  exact ⟨hinv.1, hinv.of_waiting hw⟩

theorem dispatch_inert (imp : Importer) (s t : wlr_source) (ev : Event) (e1 : List Effect)
    (h : dispatch imp s ev = .ok (t, e1)) : ∀ e ∈ e1, inert e = true := by
  cases ev with
  | frame f w hh fmt mh ml oc =>
    simp only [dispatch, Except.ok.injEq, Prod.mk.injEq] at h
    obtain ⟨_, h2⟩ := h
    subst h2
    simp
  | object f i fd sz off st pi =>
    simp only [dispatch] at h
    cases ho : object s i fd sz off st pi with
    | error e => simp [ho] at h
    | ok s1 =>
      simp only [ho, Except.ok.injEq, Prod.mk.injEq] at h
      obtain ⟨_, h2⟩ := h
      subst h2
      simp
  | ready f =>
    simp only [dispatch] at h
    exact (ready_fields imp s t e1 h).2.2.2
  | cancel f =>
    simp only [dispatch] at h
    exact (cancel_fields s t f e1 h).2.2.2
  | global_remove name =>
    simp only [dispatch, Except.ok.injEq] at h
    have h2 : e1 = (rm_interface s name).2 := by rw [h]
    rw [h2]
    exact rm_interface_inert s name

theorem dispatch_safe (imp : Importer) (s t : wlr_source) (u : List Nat) (ev : Event)
    (e1 : List Effect) (h : dispatch imp s ev = .ok (t, e1)) :
    Safe s u (Effect.callback ev :: e1) t := by
  have hin := dispatch_inert imp s t ev e1 h
  cases ev with
  | frame f w hh fmt mh ml oc =>
    simp only [dispatch, Except.ok.injEq, Prod.mk.injEq] at h
    obtain ⟨h1, _⟩ := h
    subst h1
    exact safe_neutral_callback _ _ u _ e1 (fun _ => rfl) hin rfl
  | object f i fd sz off st pi =>
    simp only [dispatch] at h
    cases ho : object s i fd sz off st pi with
    | error e => simp [ho] at h
    | ok s1 =>
      simp only [ho, Except.ok.injEq, Prod.mk.injEq] at h
      obtain ⟨h1, _⟩ := h
      subst h1
      exact safe_neutral_callback _ _ u _ e1 (fun _ => rfl) hin
        (object_fields _ _ _ _ _ _ _ _ ho).1
  | ready f => exact safe_answer s t u f _ e1 (Or.inl rfl) hin
  | cancel f => exact safe_answer s t u f _ e1 (Or.inr rfl) hin
  | global_remove name =>
    simp only [dispatch, Except.ok.injEq] at h
    have h1 : t = (rm_interface s name).1 := by rw [h]
    have hw : t.waiting = s.waiting := by rw [h1]; rfl
    exact safe_neutral_callback _ _ u _ e1 (fun _ => rfl) hin hw

theorem dispatch_round_safe (imp : Importer) (round : List Event) :
    ∀ (s t : wlr_source) (u : List Nat) (effs : List Effect),
      dispatch_round imp s round = .ok (t, effs) → Safe s u effs t := by
  induction round with
  | nil =>
    intro s t u effs h
    simp only [dispatch_round, Except.ok.injEq, Prod.mk.injEq] at h
    obtain ⟨h1, h2⟩ := h
    subst h1 h2
    exact safe_inert _ _ u [] (by simp) rfl
  | cons ev rest ih =>
    intro s t u effs h
    unfold dispatch_round at h
    cases hd : dispatch imp s ev with
    | error f => simp [hd] at h
    | ok r1 =>
      obtain ⟨s1, e1⟩ := r1
      cases hr : dispatch_round imp s1 rest with
      | error f => simp [hd, hr] at h
      | ok r2 =>
        obtain ⟨s2, e2⟩ := r2
        simp only [hd, hr, Except.ok.injEq, Prod.mk.injEq] at h
        obtain ⟨h1, h2⟩ := h
        subst h1 h2
        have hsplit : Effect.callback ev :: e1 ++ e2 = (Effect.callback ev :: e1) ++ e2 := rfl
        rw [hsplit]
        exact Safe.append (dispatch_safe imp s s1 u ev e1 hd) (ih s1 s2 _ e2 hr)

theorem pump_safe (imp : Importer) (script : List (List Event)) :
    ∀ (s t : wlr_source) (u : List Nat) (effs : List Effect),
      pump imp s script = .ok (t, effs) → Safe s u effs t := by
  induction script with
  | nil =>
    intro s t u effs h
    unfold pump at h
    by_cases hc : (s.waiting && s.current_output.isSome) = true
    · simp [hc] at h
    · rw [if_neg hc] at h
      simp only [Except.ok.injEq, Prod.mk.injEq] at h
      obtain ⟨h1, h2⟩ := h
      subst h1 h2
      exact safe_inert _ _ u [] (by simp) rfl
  | cons round rest ih =>
    intro s t u effs h
    unfold pump at h
    by_cases hc : (s.waiting && s.current_output.isSome) = true
    · rw [if_pos hc] at h
      cases hd : dispatch_round imp s round with
      | error f => simp [hd] at h
      | ok r1 =>
        obtain ⟨s1, e1⟩ := r1
        cases hr : pump imp s1 rest with
        | error f => simp [hd, hr] at h
        | ok r2 =>
          obtain ⟨s2, e2⟩ := r2
          simp only [hd, hr, Except.ok.injEq, Prod.mk.injEq] at h
          obtain ⟨h1, h2⟩ := h
          subst h1 h2
          have hsplit : Effect.roundtrip :: e1 ++ e2 = [Effect.roundtrip] ++ (e1 ++ e2) := rfl
          rw [hsplit]
          have hrt : Safe s u [Effect.roundtrip] s :=
            safe_inert s s u [Effect.roundtrip] (by simp [inert]) rfl
          exact Safe.append hrt
            (Safe.append (dispatch_round_safe imp round s s1 _ e1 hd) (ih s1 s2 _ e2 hr))
    · rw [if_neg hc] at h
      simp only [Except.ok.injEq, Prod.mk.injEq] at h
      obtain ⟨h1, h2⟩ := h
      subst h1 h2
      exact safe_inert _ _ u [] (by simp) rfl

theorem safe_of_empty (s t : wlr_source) : Safe s [] [] t := by
  intro _ _
  exact ⟨Nat.zero_le 1, Nat.zero_le 1, fun hx => absurd rfl hx⟩

theorem safe_request (s s1 : wlr_source) (u : List Nat) (frame : Nat) (m : Option Nat)
    (c : Bool) (o : Nat) (hw : s.waiting = false) (h1 : s1.waiting = true) :
    Safe s u [Effect.capture_output m c o frame, Effect.add_listener frame] s1 := by
  intro _ hinv
  have hu : u = [] := by
    by_contra hu
    have hwt := hinv.2 hu
    rw [hw] at hwt
    exact Bool.false_ne_true hwt
  subst hu
  refine ⟨by simp [max_in_flight, in_flight_after], ?_, ?_⟩
  · simp [in_flight, in_flight_after]
  · intro _
    exact h1

theorem tail_inert (s2 : wlr_source) :
    ∀ e ∈ (match s2.current_frame with
        | some cf => [Effect.draw_sprite cf.texture]
        | none => []) ++ [Effect.cond_broadcast], inert e = true := by
  intro e he
  rcases List.mem_append.1 he with he | he
  · cases hcf : s2.current_frame with
    | none => simp [hcf] at he
    | some cf => simp [hcf] at he; subst he; rfl
  · simp only [List.mem_singleton] at he
    subst he; rfl

theorem render_safe (imp : Importer) (s t : wlr_source) (u : List Nat) (frame : Nat)
    (script : List (List Event)) (effs : List Effect)
    (hq : (idle s && !u.isEmpty) = false)
    (h : render imp s frame script = .ok (t, effs)) : Safe s u effs t := by
  unfold render at h
  split at h
  · rename_i out hr ho
    cases hw : s.waiting with
    | true =>
      simp only [hw, if_true] at h
      split at h
      · exact absurd h (by simp)
      · rename_i s2 e2 hp
        simp only [Except.ok.injEq, Prod.mk.injEq] at h
        obtain ⟨h1, h2⟩ := h
        subst h1 h2
        rw [List.nil_append, List.append_assoc]
        exact Safe.append (pump_safe imp script s s2 u e2 hp)
          (safe_inert s2 s2 _ _ (tail_inert s2) rfl)
    | false =>
      simp only [hw, Bool.false_eq_true, if_false] at h
      split at h
      · exact absurd h (by simp)
      · rename_i s2 e2 hp
        simp only [Except.ok.injEq, Prod.mk.injEq] at h
        obtain ⟨h1, h2⟩ := h
        subst h1 h2
        rw [List.append_assoc, List.append_assoc]
        have hreq : Safe s u
            [Effect.capture_output s.dmabuf_manager s.show_cursor out.wl_output frame,
             Effect.add_listener frame] { s with waiting := true } :=
          safe_request s _ u frame _ _ _ hw rfl
        exact Safe.append hreq
          (Safe.append (pump_safe imp script _ s2 _ e2 hp)
            (safe_inert s2 s2 _ _ (tail_inert s2) rfl))
  · rename_i hno
    simp only [Except.ok.injEq, Prod.mk.injEq] at h
    obtain ⟨h1, h2⟩ := h
    subst h1 h2
    have hidle : idle s = true := by
      unfold idle
      cases hr : s.render with
      | false => rfl
      | true =>
        cases hco : s.current_output with
        | none => rfl
        | some out => exact absurd hco (hno out hr)
    have hu : u = [] := by
      cases u with
      | nil => rfl
      | cons a rest => simp [hidle] at hq
    subst hu
    exact safe_of_empty s _

theorem update_waiting (s : wlr_source) (output : String) (show_cursor : Bool) :
    (update s output show_cursor).waiting = s.waiting := by
  unfold update
  cases s.render <;> rfl

theorem step_safe (imp : Importer) (s t : wlr_source) (u : List Nat) (st : Step)
    (effs : List Effect)
    (hq : (match st with
      | Step.tick _ _ => !(idle s && !u.isEmpty)
      | _ => true) = true)
    (h : step imp s st = .ok (t, effs)) : Safe s u effs t := by
  cases st with
  | tick frame script =>
    have hq2 : (!(idle s && !u.isEmpty)) = true := hq
    refine render_safe imp s t u frame script effs ?_ h
    cases hx : (idle s && !u.isEmpty) with
    | false => rfl
    | true =>
      rw [hx] at hq2
      exact absurd hq2 (by decide)
  | select output show_cursor =>
    simp only [step, Except.ok.injEq, Prod.mk.injEq] at h
    obtain ⟨h1, h2⟩ := h
    subst h1 h2
    exact safe_inert _ _ u [] (by simp) (update_waiting s output show_cursor)
  | teardown =>
    simp only [step, Except.ok.injEq] at h
    have h1 : t = (destroy s).1 := by rw [h]
    have h2 : effs = (destroy s).2 := by rw [h]
    subst h1 h2
    exact safe_inert _ _ u _ (destroy_inert s) rfl

theorem run_safe (imp : Importer) (steps : List Step) :
    ∀ (s t : wlr_source) (u : List Nat) (effs : List Effect),
      no_reset_in_flight imp s u steps = true → run imp s steps = .ok (t, effs) →
        Safe s u effs t := by
  induction steps with
  | nil =>
    intro s t u effs _ h
    simp only [run, Except.ok.injEq, Prod.mk.injEq] at h
    obtain ⟨h1, h2⟩ := h
    subst h1 h2
    exact safe_inert _ _ u [] (by simp) rfl
  | cons st rest ih =>
    intro s t u effs hq h
    unfold run at h
    unfold no_reset_in_flight at hq
    cases hd : step imp s st with
    | error f => simp [hd] at h
    | ok r1 =>
      obtain ⟨s1, e1⟩ := r1
      cases hr : run imp s1 rest with
      | error f => simp [hd, hr] at h
      | ok r2 =>
        obtain ⟨s2, e2⟩ := r2
        simp only [hd, hr, Except.ok.injEq, Prod.mk.injEq] at h
        obtain ⟨h1, h2⟩ := h
        subst h1 h2
        simp only [hd, Bool.and_eq_true] at hq
        exact Safe.append (step_safe imp s s1 u st e1 hq.1 hd) (ih s1 s2 _ e2 hq.2 hr)

theorem in_flight_prefix_le (tr : List Effect) :
    ∀ (u : List Nat) (pre : List Effect), pre <+: tr →
      (in_flight u pre).length ≤ max_in_flight u tr := by
  induction tr with
  | nil =>
    intro u pre hp
    have : pre = [] := List.eq_nil_of_prefix_nil hp
    subst this
    exact Nat.le_refl _
  | cons e tr ih =>
    intro u pre hp
    cases pre with
    | nil => exact Nat.le_max_left _ _
    | cons p pre2 =>
      obtain ⟨hpe, hrest⟩ := List.cons_prefix_cons.1 hp
      subst hpe
      exact Nat.le_trans (ih (in_flight_after u p) pre2 hrest) (Nat.le_max_right _ _)

theorem inert_not_request (e : Effect) (h : inert e = true) : is_request e = false := by
  cases e <;> first | rfl | simp [inert] at h

theorem dispatch_round_quiet (imp : Importer) (round : List Event) :
    ∀ (s t : wlr_source) (effs : List Effect),
      dispatch_round imp s round = .ok (t, effs) → ∀ e ∈ effs, is_request e = false := by
  induction round with
  | nil =>
    intro s t effs h e he
    simp only [dispatch_round, Except.ok.injEq, Prod.mk.injEq] at h
    obtain ⟨_, h2⟩ := h
    subst h2
    simp at he
  | cons ev rest ih =>
    intro s t effs h e he
    unfold dispatch_round at h
    cases hd : dispatch imp s ev with
    | error f => simp [hd] at h
    | ok r1 =>
      obtain ⟨s1, e1⟩ := r1
      cases hr : dispatch_round imp s1 rest with
      | error f => simp [hd, hr] at h
      | ok r2 =>
        obtain ⟨s2, e2⟩ := r2
        simp only [hd, hr, Except.ok.injEq, Prod.mk.injEq] at h
        obtain ⟨_, h2⟩ := h
        subst h2
        rcases List.mem_cons.1 he with he | he
        · subst he; rfl
        · rcases List.mem_append.1 he with he | he
          · exact inert_not_request e (dispatch_inert imp s s1 ev e1 hd e he)
          · exact ih s1 s2 e2 hr e he

theorem pump_quiet (imp : Importer) (script : List (List Event)) :
    ∀ (s t : wlr_source) (effs : List Effect),
      pump imp s script = .ok (t, effs) → ∀ e ∈ effs, is_request e = false := by
  induction script with
  | nil =>
    intro s t effs h e he
    unfold pump at h
    by_cases hc : (s.waiting && s.current_output.isSome) = true
    · simp [hc] at h
    · rw [if_neg hc] at h
      simp only [Except.ok.injEq, Prod.mk.injEq] at h
      obtain ⟨_, h2⟩ := h
      subst h2
      simp at he
  | cons round rest ih =>
    intro s t effs h e he
    unfold pump at h
    by_cases hc : (s.waiting && s.current_output.isSome) = true
    · rw [if_pos hc] at h
      cases hd : dispatch_round imp s round with
      | error f => simp [hd] at h
      | ok r1 =>
        obtain ⟨s1, e1⟩ := r1
        cases hr : pump imp s1 rest with
        | error f => simp [hd, hr] at h
        | ok r2 =>
          obtain ⟨s2, e2⟩ := r2
          simp only [hd, hr, Except.ok.injEq, Prod.mk.injEq] at h
          obtain ⟨_, h2⟩ := h
          subst h2
          rcases List.mem_cons.1 he with he | he
          · subst he; rfl
          · rcases List.mem_append.1 he with he | he
            · exact dispatch_round_quiet imp round s s1 e1 hd e he
            · exact ih s1 s2 e2 hr e he
    · rw [if_neg hc] at h
      simp only [Except.ok.injEq, Prod.mk.injEq] at h
      obtain ⟨_, h2⟩ := h
      subst h2
      simp at he

theorem render_busy_quiet (imp : Importer) (s t : wlr_source) (frame : Nat)
    (script : List (List Event)) (effs : List Effect) (hw : s.waiting = true)
    (h : render imp s frame script = .ok (t, effs)) : ∀ e ∈ effs, is_request e = false := by
  intro e he
  unfold render at h
  split at h
  · simp only [hw, if_true] at h
    split at h
    · exact absurd h (by simp)
    · rename_i s2 e2 hp
      simp only [Except.ok.injEq, Prod.mk.injEq] at h
      obtain ⟨_, h2⟩ := h
      subst h2
      rw [List.nil_append, List.append_assoc] at he
      rcases List.mem_append.1 he with he | he
      · exact pump_quiet imp script s s2 e2 hp e he
      · exact inert_not_request e (tail_inert s2 e he)
  · simp only [Except.ok.injEq, Prod.mk.injEq] at h
    obtain ⟨_, h2⟩ := h
    subst h2
    simp at he

/-- C7, the claim as stated fails. In `removal_steps` the selected output is
removed while request 1 is unanswered, the next tick is entered with no output
selected and clears the busy flag, output B is selected, and the tick after
that issues request 3: two requests are unanswered, although every answer
names an unanswered request. In `stale_cancel_steps` no tick is entered
without an output, but a `cancel` naming the current frame clears the busy
flag while request 2 is unanswered, and the next tick issues request 3. -/
theorem second_request_while_unanswered :
    (run imp_ok src_idle removal_steps).map
        (fun r => (max_in_flight [] r.2, answers_in_flight [] r.2)) = .ok (2, true) ∧
    no_reset_in_flight imp_ok src_idle [] removal_steps = false ∧
    (run imp_ok src_idle stale_cancel_steps).map
        (fun r => (max_in_flight [] r.2, answers_in_flight [] r.2)) = .ok (2, false) ∧
    no_reset_in_flight imp_ok src_idle [] stale_cancel_steps = true :=
  ⟨rfl, rfl, rfl, rfl⟩

/-- C7 amended: in a run of render ticks, output selections, output removals
and protocol events (teardown included) that returns, in which every `ready` or
`cancel` event names a request that is unanswered when it arrives and no tick
is entered with no output selected (or the render flag false) while a request
is unanswered, at most one capture request is unanswered at every point of the
trace (after every prefix of it); and when a request is still unanswered at
the end, the busy flag is set and a further render tick, whatever events it
receives, issues no capture request. -/
theorem in_flight_at_most_one (imp : Importer) (s t : wlr_source) (steps : List Step)
    (tr : List Effect) (hrun : run imp s steps = .ok (t, tr))
    (hq : no_reset_in_flight imp s [] steps = true)
    (hans : answers_in_flight [] tr = true) :
    max_in_flight [] tr ≤ 1 ∧
    (∀ pre, pre <+: tr → (in_flight [] pre).length ≤ 1) ∧
    (in_flight [] tr ≠ [] →
      t.waiting = true ∧
      ∀ (frame : Nat) (script : List (List Event)) (t2 : wlr_source) (effs : List Effect),
        render imp t frame script = .ok (t2, effs) → ∀ e ∈ effs, is_request e = false) := by
  have hinv0 : Inv s [] := ⟨Nat.zero_le 1, fun h => absurd rfl h⟩
  obtain ⟨hmax, hinv⟩ := run_safe imp steps s t [] tr hq hrun hans hinv0
  refine ⟨hmax, fun pre hp => Nat.le_trans (in_flight_prefix_le tr [] pre hp) hmax, ?_⟩
  intro hu
  exact ⟨hinv.2 hu, fun frame script t2 effs hr =>
    render_busy_quiet imp t t2 frame script effs (hinv.2 hu) hr⟩

theorem in_flight_at_most_one_witness :
    max_in_flight [] (trace_of (run imp_ok src_idle busy_steps)) ≤ 1 ∧
    in_flight [] (trace_of (run imp_ok src_idle (busy_steps.take 2))) = [1] :=
  ⟨(in_flight_at_most_one imp_ok src_idle _ busy_steps
      (trace_of (run imp_ok src_idle busy_steps)) rfl rfl rfl).1, rfl⟩

end Wlrobs
